import Mathlib

/-!
Verification of the ingestion / decoding / filtering core of `src/app.py`
(Researcher Pro, Environment Gerontology Edition v4.0).

The Python code is shallowly embedded:
* a Python `dict` whose iteration order matters is an association list in
  insertion order; inserting an existing key overwrites in place;
* a missing JSON key (or a JSON `null` read through `dict.get`) is `none`;
* a Python expression that can raise (`p['display_name']` on a record
  without that key, a `requests.get` without `try`) is modelled in
  `Option`, with `none` for the raised exception;
* Python truthiness of a string (`if doi:`) is `≠ ""` on present values.
-/

/-- Substring test on character lists: `hasSub n h` is true iff `n` occurs
contiguously inside `h`.  Models the Python `in` operator on strings. -/
def hasSub (needle : List Char) : List Char → Bool
  | [] => needle.isEmpty
  | c :: t => needle.isPrefixOf (c :: t) || hasSub needle t

/-- Python `needle in hay` for strings. -/
def pyIn (needle hay : String) : Bool := hasSub needle.toList hay.toList

/-- Python `s.startswith(pre)` for strings. -/
def pyStartsWith (s pre : String) : Bool := pre.toList.isPrefixOf s.toList

/-- Open-access metadata of a raw upstream record (`open_access` object). -/
structure OpenAccess where
  is_oa : Bool
  oa_url : Option String
deriving DecidableEq

/-- Raw upstream record as consumed by `app.py`: every field the code reads.
`none` models a missing key (or a JSON `null` read through `dict.get`).
`abstract_inverted_index` is the upstream inverted index in dict iteration
order: token paired with its ordered position list. -/
structure RawPaper where
  doi : Option String
  open_access : Option OpenAccess
  landing_page_url : Option String
  display_name : Option String
  abstract_inverted_index : Option (List (String × List Nat))
  publication_date : Option String
  cited_by_count : Option Nat
  host_venue_name : Option String
  authorships : List (Option String)
deriving DecidableEq

/-- Python truthiness of an optional string: a present, non-empty value. -/
def truthyStr : Option String → Option String
  | some s => if s = "" then none else some s
  | none => none

/-- Final fallback of `get_paper_url`:
`p.get('primary_location', {}).get('landing_page_url', '#')`. -/
def landingFallback (p : RawPaper) : String := p.landing_page_url.getD "#"

/-- Embedding of `get_paper_url` (src/app.py lines 81-94): DOI link first
(kept verbatim when it already starts with `http`, else prefixed with
`https://doi.org/`), else the open-access URL when `is_oa` is truthy and
`oa_url` is truthy, else the landing page with `'#'` as default. -/
def get_paper_url (p : RawPaper) : String :=
  match truthyStr p.doi with
  | some doi => if pyStartsWith doi "http" then doi else "https://doi.org/" ++ doi
  | none =>
    match p.open_access with
    | some oa =>
      if oa.is_oa then
        match truthyStr oa.oa_url with
        | some u => u
        | none => landingFallback p
      else landingFallback p
    | none => landingFallback p

/-- Usable direct open-access link of a record: present exactly when
`is_oa` is truthy and `oa_url` is truthy. -/
def oaLink (p : RawPaper) : Option String :=
  match p.open_access with
  | some oa => if oa.is_oa then truthyStr oa.oa_url else none
  | none => none

/-- Resolution policy exactly as the specification words it: prefer a
direct open-access file link, else the canonical `https://doi.org/<id>`
link, else the publisher landing page, else absent. -/
def specOpenAccessUrl (p : RawPaper) : Option String :=
  match oaLink p with
  | some u => some u
  | none =>
    match p.doi with
    | some d => some ("https://doi.org/" ++ d)
    | none => p.landing_page_url

/-- Placeholder string returned by `decode_abstract` for a missing or
empty inverted index (src/app.py line 108). -/
def noAbstractMsg : String := "No abstract text provided for this entry."

/-- Python dict assignment `word_map[pos] = word` on an association list:
overwrites an existing key in place, otherwise appends. -/
def dictInsert : List (Nat × String) → Nat → String → List (Nat × String)
  | [], k, v => [(k, v)]
  | e :: rest, k, v => if e.1 = k then (k, v) :: rest else e :: dictInsert rest k v

/-- Python dict lookup `word_map[k]` on an association list. -/
def dictLookup : List (Nat × String) → Nat → Option String
  | [], _ => none
  | e :: rest, k => if e.1 = k then some e.2 else dictLookup rest k

/-- Key list of the association-list dict, in insertion order. -/
def dictKeys (m : List (Nat × String)) : List Nat := m.map (·.1)

/-- Inner loop of `decode_abstract`:
`for pos in pos_list: word_map[pos] = word`. -/
def insertEntry (acc : List (Nat × String)) (e : String × List Nat) : List (Nat × String) :=
  e.2.foldl (fun a p => dictInsert a p e.1) acc

/-- Outer loop of `decode_abstract`:
`for word, pos_list in inverted_index.items(): ...`. -/
def buildWordMap (m : List (String × List Nat)) : List (Nat × String) :=
  m.foldl insertEntry []

/-- Embedding of `decode_abstract` (src/app.py lines 107-112): placeholder
for a falsy index, otherwise invert into `position -> token` (later
assignments overwrite) and join the tokens of the sorted positions with
single spaces. -/
def decode_abstract : Option (List (String × List Nat)) → String
  | none => noAbstractMsg
  | some m =>
    if m = [] then noAbstractMsg
    else
      String.intercalate " "
        ((List.insertionSort (· ≤ ·) (dictKeys (buildWordMap m))).map
          (fun k => (dictLookup (buildWordMap m) k).getD ""))

/-- Token of the last entry of the iterated mapping that claims position
`q`, if any: entries nearer the end of the list win. -/
def lastClaim : List (String × List Nat) → Nat → Option String
  | [], _ => none
  | e :: rest, q =>
    match lastClaim rest q with
    | some w => some w
    | none => if e.2.contains q then some e.1 else none

/-- Zero-based positions at which token `w` occurs in the word list `ws`. -/
def positions (w : String) (ws : List String) : List Nat :=
  (List.range ws.length).filter (fun i => ws[i]? == some w)

/-- Modelled from the spec: the upstream `AbstractIndex` wire encoding of a
text (given as its word list), absent from src/ — a mapping from each word
token to the ordered set of zero-based word positions at which it occurs
in the original text. -/
def encode (ws : List String) : List (String × List Nat) :=
  ws.dedup.map (fun w => (w, positions w ws))

/-- Journal subscription table of `fetch_guaranteed_data_v4`
(src/app.py lines 116-122). -/
def journal_db : List (String × String) :=
  [("The Gerontologist", "S151833132"),
   ("Health & Place", "S108842106"),
   ("Landscape & Urban Planning", "S162319083"),
   ("Age and Ageing", "S169624507"),
   ("J of Aging and Env", "S4210214227")]

/-- Source ids of the subscribed journal names, in selection order:
`[journal_db[n] for n in journal_names if n in journal_db]`. -/
def selectedIds (journal_names : List String) : List String :=
  journal_names.filterMap (fun n => journal_db.lookup n)

/-- Pipe-joined id filter placed into the primary API URL. -/
def idFilter (ids : List String) : String := String.intercalate "|" ids

/-- Upstream behaviour for one run: `primary f` is the outcome of the
guarded source-filtered request for id filter `f` (`none` models a raised
exception or a non-200 status, both of which reach the fallback);
`fallbackResults` is the outcome of the unguarded broader keyword request
(`none` models that request itself raising, which propagates). -/
structure Upstream where
  primary : String → Option (List RawPaper)
  fallbackResults : Option (List RawPaper)

/-- Embedding of `fetch_guaranteed_data_v4` (src/app.py lines 114-140):
unknown-only or empty subscriptions return `[]` with no request; a primary
request that yields a 200 response returns its `results` list as-is
(however short, even empty); only a failed primary request reaches the
fallback keyword request, whose outcome replaces the result set. -/
def fetch_guaranteed_data_v4 (up : Upstream) (journal_names : List String) :
    Option (List RawPaper) :=
  let ids := selectedIds journal_names
  if ids = [] then some []
  else
    match up.primary (idFilter ids) with
    | some results => some results
    | none => up.fallbackResults

/-- Python `str(...)` rendering of one inverted-index entry, as inside the
dict repr: `'token': [p1, p2]`. -/
def pyStrEntry (e : String × List Nat) : String :=
  "\x27" ++ e.1 ++ "\x27: [" ++ String.intercalate ", " (e.2.map toString) ++ "]"

/-- Python `str(p.get('abstract_inverted_index',''))`: empty string when
the key is absent, else the dict repr in iteration order. -/
def pyStrIndex : Option (List (String × List Nat)) → String
  | none => ""
  | some m => "\x7b" ++ String.intercalate ", " (m.map pyStrEntry) ++ "\x7d"

/-- Keyword predicate of the feed filter (src/app.py line 174), written as
a total Boolean test: the lowercased keyword occurs in the lowercased
title or in the lowercased `str()` rendering of the raw inverted index. -/
def keywordHit (kw : String) (p : RawPaper) : Bool :=
  pyIn kw.toLower (p.display_name.getD "").toLower ||
  pyIn kw.toLower (pyStrIndex p.abstract_inverted_index).toLower

/-- One evaluation of the filter condition on one record:
`kw.lower() in p['display_name'].lower() or kw.lower() in
str(p.get('abstract_inverted_index','')).lower()`.  The unguarded
`p['display_name']` raises `KeyError` (`none`) when the key is absent. -/
def matchPaper (kw : String) (p : RawPaper) : Option Bool :=
  match p.display_name with
  | none => none
  | some t =>
    some (pyIn kw.toLower t.toLower ||
      pyIn kw.toLower (pyStrIndex p.abstract_inverted_index).toLower)

/-- List comprehension of src/app.py line 174 over a truthy keyword:
`none` when any element raises. -/
def filterPapersAux (kw : String) : List RawPaper → Option (List RawPaper)
  | [] => some []
  | p :: rest =>
    match matchPaper kw p with
    | none => none
    | some b =>
      match filterPapersAux kw rest with
      | none => none
      | some rs => some (if b then p :: rs else rs)

/-- Embedding of src/app.py line 174:
`papers = [comprehension] if kw else all_papers`.  A falsy (empty) keyword
skips the comprehension entirely. -/
def filterPapers (kw : String) (all_papers : List RawPaper) : Option (List RawPaper) :=
  if kw = "" then some all_papers else filterPapersAux kw all_papers

/-- Displayed card data derived from one raw record in the render loop
(src/app.py lines 179-193). -/
structure Record where
  title : String
  venue : String
  date : String
  url : String
  cites : Nat
  is_oa : Bool
  authors_full : String
  authors_short : String
  abstract : String
deriving DecidableEq

/-- Author display name: `a.get('author', {}).get('display_name', '')`. -/
def authorName (a : Option String) : String := a.getD ""

/-- Per-record data processing of the render loop (src/app.py lines
181-193): every read supplies a default, so the processing is total. -/
def processPaper (p : RawPaper) : Record :=
  { title := p.display_name.getD "Untitled Article"
  , venue := p.host_venue_name.getD "Top Tier Journal"
  , date := p.publication_date.getD "N/A"
  , url := get_paper_url p
  , cites := p.cited_by_count.getD 0
  , is_oa := match p.open_access with | some oa => oa.is_oa | none => false
  , authors_full := String.intercalate ", " (p.authorships.map authorName)
  , authors_short :=
      String.intercalate ", " ((p.authorships.take 2).map authorName) ++
        (if p.authorships.length > 2 then " et al." else "")
  , abstract := decode_abstract p.abstract_inverted_index }

/-- Records the main feed displays for a keyword and a fetched list:
filter (line 174), then per-record processing of the render loop. -/
def displayedRecords (kw : String) (all_papers : List RawPaper) : Option (List Record) :=
  (filterPapers kw all_papers).map (List.map processPaper)

/-- Records present in the later corpus that are absent from the earlier
one. -/
def newRecords (old later : List RawPaper) : List RawPaper :=
  later.filter (fun r => !(old.contains r))

/-- Concrete record carrying a DOI, a usable direct open-access link and a
landing page at the same time. -/
def exPaperBoth : RawPaper :=
  { doi := some "10.1234/xyz"
  , open_access := some { is_oa := true, oa_url := some "https://example.org/paper.pdf" }
  , landing_page_url := some "https://publisher.example/landing"
  , display_name := some "A Paper"
  , abstract_inverted_index := none
  , publication_date := none
  , cited_by_count := none
  , host_venue_name := none
  , authorships := [] }

/-- Concrete record with no unique identifier of any kind and no other
usable field. -/
def exPaperNoId : RawPaper :=
  { doi := none
  , open_access := none
  , landing_page_url := none
  , display_name := none
  , abstract_inverted_index := none
  , publication_date := none
  , cited_by_count := none
  , host_venue_name := none
  , authorships := [] }

/-- Concrete well-formed record whose raw inverted index mentions position
`3` while its title does not contain the digit `3`. -/
def exPaperIdx : RawPaper :=
  { doi := some "10.5555/idx"
  , open_access := none
  , landing_page_url := none
  , display_name := some "Aging in Place"
  , abstract_inverted_index := some [("fall", [0, 3])]
  , publication_date := some "2024-01-01"
  , cited_by_count := some 5
  , host_venue_name := some "Health & Place"
  , authorships := [some "A. Author"] }

/-- Concrete simple record used as an upstream result. -/
def exPaperA : RawPaper :=
  { doi := some "10.1000/a"
  , open_access := none
  , landing_page_url := none
  , display_name := some "First Paper"
  , abstract_inverted_index := none
  , publication_date := some "2024-02-02"
  , cited_by_count := some 1
  , host_venue_name := some "The Gerontologist"
  , authorships := [] }

/-- Upstream in which the primary request succeeds with zero results (a
quiet subscription) while the fallback keyword request has data. -/
def exUpQuiet : Upstream :=
  { primary := fun _ => some []
  , fallbackResults := some [exPaperA] }

/-- Upstream in which the primary request fails (exception or non-200). -/
def exUpDown : Upstream :=
  { primary := fun _ => none
  , fallbackResults := some [] }

/-- Upstream whose primary request deterministically succeeds with one
record, modelling an unchanged upstream across two sync calls. -/
def exUpConst : Upstream :=
  { primary := fun _ => some [exPaperA]
  , fallbackResults := some [] }

theorem dictLookup_dictInsert (m : List (Nat × String)) (k : Nat) (v : String) (q : Nat) :
    dictLookup (dictInsert m k v) q = if k = q then some v else dictLookup m q := by
  induction m with
  | nil => rfl
  | cons e rest ih =>
    simp only [dictInsert]
    by_cases he : e.1 = k
    · subst he
      rw [if_pos rfl]
      simp only [dictLookup]
      by_cases h : e.1 = q <;> simp [h, dictLookup]
    · rw [if_neg he]
      simp only [dictLookup, ih]
      by_cases h : e.1 = q
      · have hk : ¬ k = q := fun hk => he (hk ▸ h)
        simp [h, hk]
      · simp [h]

theorem foldl_dictInsert_lookup (w : String) (ps : List Nat) :
    ∀ (acc : List (Nat × String)) (q : Nat),
      dictLookup (ps.foldl (fun a p => dictInsert a p w) acc) q =
        if q ∈ ps then some w else dictLookup acc q := by
  induction ps with
  | nil => intro acc q; simp
  | cons p rest ih =>
    intro acc q
    simp only [List.foldl_cons]
    rw [ih, dictLookup_dictInsert]
    by_cases h1 : q ∈ rest
    · simp [h1]
    · by_cases h2 : p = q
      · simp [h1, h2]
      · have h2a : ¬ q = p := fun h => h2 h.symm
        simp [h1, h2, h2a]

theorem insertEntry_lookup (acc : List (Nat × String)) (e : String × List Nat) (q : Nat) :
    dictLookup (insertEntry acc e) q =
      if q ∈ e.2 then some e.1 else dictLookup acc q :=
  foldl_dictInsert_lookup e.1 e.2 acc q

theorem foldl_insertEntry_lookup (m : List (String × List Nat)) :
    ∀ (acc : List (Nat × String)) (q : Nat),
      dictLookup (m.foldl insertEntry acc) q =
        (lastClaim m q).or (dictLookup acc q) := by
  induction m with
  | nil => intro acc q; simp [lastClaim]
  | cons e rest ih =>
    intro acc q
    simp only [List.foldl_cons]
    rw [ih, insertEntry_lookup]
    simp only [lastClaim]
    cases lastClaim rest q with
    | some w => simp
    | none =>
      by_cases h : q ∈ e.2 <;> simp [h]

theorem buildWordMap_lookup (m : List (String × List Nat)) (q : Nat) :
    dictLookup (buildWordMap m) q = lastClaim m q := by
  rw [buildWordMap, foldl_insertEntry_lookup]
  simp [dictLookup]

theorem dictLookup_ne_none_iff (m : List (Nat × String)) (q : Nat) :
    dictLookup m q ≠ none ↔ q ∈ dictKeys m := by
  induction m with
  | nil => simp [dictLookup, dictKeys]
  | cons e rest ih =>
    simp only [dictLookup, dictKeys, List.map_cons, List.mem_cons]
    by_cases h : e.1 = q
    · simp [h]
    · have h2 : ¬ q = e.1 := fun hq => h hq.symm
      simp [h, h2, ih, dictKeys]

theorem mem_dictKeys_dictInsert (m : List (Nat × String)) (k : Nat) (v : String) (q : Nat) :
    q ∈ dictKeys (dictInsert m k v) ↔ q = k ∨ q ∈ dictKeys m := by
  induction m with
  | nil => simp [dictInsert, dictKeys]
  | cons e rest ih =>
    simp only [dictInsert]
    by_cases he : e.1 = k
    · subst he
      rw [if_pos rfl]
      simp only [dictKeys, List.map_cons, List.mem_cons]
      tauto
    · rw [if_neg he]
      simp only [dictKeys, List.map_cons, List.mem_cons]
      rw [show List.map (fun x => x.1) (dictInsert rest k v) = dictKeys (dictInsert rest k v) from rfl]
      rw [ih]
      simp only [dictKeys]
      tauto

theorem nodup_dictKeys_dictInsert (m : List (Nat × String)) (k : Nat) (v : String)
    (h : (dictKeys m).Nodup) : (dictKeys (dictInsert m k v)).Nodup := by
  induction m with
  | nil => simp [dictInsert, dictKeys]
  | cons e rest ih =>
    simp only [dictKeys, List.map_cons, List.nodup_cons] at h
    simp only [dictInsert]
    by_cases he : e.1 = k
    · subst he
      rw [if_pos rfl]
      simp only [dictKeys, List.map_cons, List.nodup_cons]
      exact h
    · rw [if_neg he]
      simp only [dictKeys, List.map_cons, List.nodup_cons]
      constructor
      · rw [show List.map (fun x => x.1) (dictInsert rest k v) = dictKeys (dictInsert rest k v) from rfl]
        rw [mem_dictKeys_dictInsert]
        rintro (h1 | h2)
        · exact he h1
        · exact h.1 h2
      · exact ih h.2

theorem nodup_dictKeys_foldl_dictInsert (w : String) (ps : List Nat) :
    ∀ acc : List (Nat × String), (dictKeys acc).Nodup →
      (dictKeys (ps.foldl (fun a p => dictInsert a p w) acc)).Nodup := by
  induction ps with
  | nil => intro acc h; simpa using h
  | cons p rest ih =>
    intro acc h
    simp only [List.foldl_cons]
    exact ih _ (nodup_dictKeys_dictInsert acc p w h)

theorem nodup_dictKeys_insertEntry (acc : List (Nat × String)) (e : String × List Nat)
    (h : (dictKeys acc).Nodup) : (dictKeys (insertEntry acc e)).Nodup :=
  nodup_dictKeys_foldl_dictInsert e.1 e.2 acc h

theorem nodup_dictKeys_foldl_insertEntry (m : List (String × List Nat)) :
    ∀ acc : List (Nat × String), (dictKeys acc).Nodup →
      (dictKeys (m.foldl insertEntry acc)).Nodup := by
  induction m with
  | nil => intro acc h; simpa using h
  | cons e rest ih =>
    intro acc h
    simp only [List.foldl_cons]
    exact ih _ (nodup_dictKeys_insertEntry acc e h)

theorem nodup_dictKeys_buildWordMap (m : List (String × List Nat)) :
    (dictKeys (buildWordMap m)).Nodup :=
  nodup_dictKeys_foldl_insertEntry m [] (by simp [dictKeys])

theorem mem_positions (w : String) (ws : List String) (q : Nat) :
    q ∈ positions w ws ↔ ws[q]? = some w := by
  unfold positions
  simp only [List.mem_filter, List.mem_range, beq_iff_eq]
  constructor
  · rintro ⟨-, h⟩; exact h
  · intro h
    refine ⟨?_, h⟩
    by_contra hq
    rw [List.getElem?_eq_none (le_of_not_lt hq)] at h
    exact Option.noConfusion h

theorem lastClaim_map (ws : List String) (q : Nat) (ts : List String) :
    lastClaim (ts.map (fun w => (w, positions w ws))) q =
      if ts.any (fun w => ws[q]? == some w) then ws[q]? else none := by
  induction ts with
  | nil => simp [lastClaim]
  | cons w rest ih =>
    have hstep :
        lastClaim ((w, positions w ws) :: rest.map (fun w => (w, positions w ws))) q =
          match lastClaim (rest.map (fun w => (w, positions w ws))) q with
          | some w1 => some w1
          | none => if (positions w ws).contains q then some w else none := rfl
    rw [List.map_cons, hstep, ih]
    by_cases hr : rest.any (fun w => ws[q]? == some w)
    · rw [if_pos hr]
      obtain ⟨w0, hw0, hbeq⟩ := List.any_eq_true.mp hr
      have hq0 : ws[q]? = some w0 := by simpa using hbeq
      have hany : ((w :: rest).any fun w1 => ws[q]? == some w1) = true := by
        rw [List.any_cons, hr]
        simp
      rw [if_pos hany, hq0]
    · rw [if_neg hr]
      show (if (positions w ws).contains q then some w else none) =
        if ((w :: rest).any fun w1 => ws[q]? == some w1) then ws[q]? else none
      by_cases hm : ws[q]? = some w
      · have hmem : q ∈ positions w ws := (mem_positions w ws q).mpr hm
        have hc : (positions w ws).contains q = true := by simp [hmem]
        have hany : ((w :: rest).any fun w1 => ws[q]? == some w1) = true := by
          rw [List.any_cons]
          simp [hm]
        rw [hc, hany, if_pos rfl, if_pos rfl, hm]
      · have hnmem : q ∉ positions w ws := fun hq => hm ((mem_positions w ws q).mp hq)
        have hc : (positions w ws).contains q = false := by simp [hnmem]
        have hrf : (rest.any fun w => ws[q]? == some w) = false := by
          simpa using hr
        have hany : ((w :: rest).any fun w1 => ws[q]? == some w1) = false := by
          rw [List.any_cons, hrf]
          simp [hm]
        rw [hc, hany]
        simp

theorem lastClaim_encode (ws : List String) (q : Nat) :
    lastClaim (encode ws) q = ws[q]? := by
  rw [encode, lastClaim_map]
  by_cases h : ∃ w0, ws[q]? = some w0
  · obtain ⟨w0, hq⟩ := h
    have hlt : q < ws.length := (List.getElem?_eq_some.mp hq).1
    have hmem : w0 ∈ ws := by
      obtain ⟨hl, hg⟩ := List.getElem?_eq_some.mp hq
      exact hg ▸ List.getElem_mem hl
    have hany : (ws.dedup.any fun w => ws[q]? == some w) = true :=
      List.any_eq_true.mpr ⟨w0, List.mem_dedup.mpr hmem, by simp [hq]⟩
    rw [if_pos hany]
  · have hnone : ws[q]? = none := by
      cases hws : ws[q]? with
      | some w0 => exact absurd ⟨w0, hws⟩ h
      | none => rfl
    have hany : (ws.dedup.any fun w => ws[q]? == some w) = false := by
      simp [hnone]
    rw [hany]
    simp [hnone]

theorem range_map_getD (ws : List String) :
    (List.range ws.length).map (fun i => ws[i]?.getD "") = ws := by
  induction ws with
  | nil => simp
  | cons w rest ih =>
    rw [List.length_cons, List.range_succ_eq_map, List.map_cons, List.map_map]
    have hcomp :
        ((fun i => (w :: rest)[i]?.getD "") ∘ Nat.succ) =
          fun i => rest[i]?.getD "" := by
      funext i
      simp [Function.comp, List.getElem?_cons_succ]
    rw [hcomp, ih]
    simp

theorem encode_ne_nil (ws : List String) (h : ws ≠ []) : encode ws ≠ [] := by
  rw [encode]
  simp [List.dedup_eq_nil, h]

theorem sortedKeys_encode (ws : List String) :
    List.insertionSort (· ≤ ·) (dictKeys (buildWordMap (encode ws))) =
      List.range ws.length := by
  have hlook : ∀ q, dictLookup (buildWordMap (encode ws)) q = ws[q]? := fun q => by
    rw [buildWordMap_lookup, lastClaim_encode]
  have hmem : ∀ q, q ∈ dictKeys (buildWordMap (encode ws)) ↔ q < ws.length := by
    intro q
    rw [← dictLookup_ne_none_iff, hlook]
    constructor
    · intro hne
      by_contra hq
      exact hne (List.getElem?_eq_none (le_of_not_lt hq))
    · intro hq hnone
      rw [List.getElem?_eq_some.mpr ⟨hq, rfl⟩] at hnone
      exact Option.noConfusion hnone
  have hperm :
      (List.insertionSort (· ≤ ·) (dictKeys (buildWordMap (encode ws)))).Perm
        (List.range ws.length) := by
    have h1 := List.perm_insertionSort (· ≤ ·) (dictKeys (buildWordMap (encode ws)))
    have hnd : (dictKeys (buildWordMap (encode ws))).Nodup := nodup_dictKeys_buildWordMap _
    rw [List.perm_ext_iff_of_nodup (h1.nodup_iff.mpr hnd) (List.nodup_range _)]
    intro a
    rw [h1.mem_iff, hmem, List.mem_range]
  exact List.eq_of_perm_of_sorted hperm
    (List.sorted_insertionSort (· ≤ ·) _)
    ((List.sorted_lt_range _).imp le_of_lt)

theorem decode_encode_aux (ws : List String) (h : ws ≠ []) :
    decode_abstract (some (encode ws)) = String.intercalate " " ws := by
  show (if encode ws = [] then noAbstractMsg
      else
        String.intercalate " "
          ((List.insertionSort (· ≤ ·) (dictKeys (buildWordMap (encode ws)))).map
            (fun k => (dictLookup (buildWordMap (encode ws)) k).getD ""))) =
      String.intercalate " " ws
  rw [if_neg (encode_ne_nil ws h), sortedKeys_encode]
  have hmap :
      (List.range ws.length).map (fun k => (dictLookup (buildWordMap (encode ws)) k).getD "") =
        (List.range ws.length).map (fun i => ws[i]?.getD "") :=
    List.map_congr_left (fun a _ => by rw [buildWordMap_lookup, lastClaim_encode])
  rw [hmap, range_map_getD]

/-- C1 counterexample: on a record carrying both a direct open-access file
link and a DOI, the code derives the canonical DOI link, not the direct
open-access link the spec's resolution order prefers; so the derived URL
does not follow the spec's policy. -/
theorem c1_counterexample :
    specOpenAccessUrl exPaperBoth = some "https://example.org/paper.pdf" ∧
    get_paper_url exPaperBoth = "https://doi.org/10.1234/xyz" := ⟨rfl, by decide⟩

/-- C1 (amended): the derived paper URL prefers the DOI (returned verbatim
when it already starts with `http`, else prefixed `https://doi.org/`);
only when no truthy DOI exists is a usable direct open-access link used;
only when neither exists is the publisher landing page used, with the
placeholder `#` (not absence) when that too is missing. -/
theorem get_paper_url_resolution (p : RawPaper) :
    (∀ d, truthyStr p.doi = some d →
        get_paper_url p = if pyStartsWith d "http" then d else "https://doi.org/" ++ d) ∧
    (truthyStr p.doi = none → ∀ u, oaLink p = some u → get_paper_url p = u) ∧
    (truthyStr p.doi = none → oaLink p = none →
        get_paper_url p = p.landing_page_url.getD "#") := by
  refine ⟨?_, ?_, ?_⟩
  · intro d hd
    simp [get_paper_url, hd]
  · intro hd u hu
    cases hoa : p.open_access with
    | none => simp [oaLink, hoa] at hu
    | some oa =>
      by_cases hb : oa.is_oa
      · simp only [oaLink, hoa, if_pos hb] at hu
        simp [get_paper_url, hd, hoa, hb, hu]
      · simp [oaLink, hoa, hb] at hu
  · intro hd hu
    cases hoa : p.open_access with
    | none => simp [get_paper_url, hd, hoa, landingFallback]
    | some oa =>
      by_cases hb : oa.is_oa
      · simp only [oaLink, hoa, if_pos hb] at hu
        simp [get_paper_url, hd, hoa, hb, hu, landingFallback]
      · simp [get_paper_url, hd, hoa, hb, landingFallback]

/-- C1 witness: the amended resolution applied to the concrete record with
both links present yields its DOI link. -/
theorem c1_witness : get_paper_url exPaperBoth = "https://doi.org/10.1234/xyz" := by
  rw [(get_paper_url_resolution exPaperBoth).1 "10.1234/xyz" (by decide)]
  decide

/-- C2 counterexample: on the absent index, the decoder returns the
placeholder sentence, which is not the empty string the claim requires. -/
theorem c2_counterexample :
    decode_abstract none = noAbstractMsg ∧ noAbstractMsg ≠ "" := ⟨rfl, by decide⟩

/-- C2 (amended): for an absent or empty inverted index the decoder itself
returns the fixed placeholder `No abstract text provided for this entry.`;
the substitution happens inside the decoder, not in its callers. -/
theorem decode_abstract_empty :
    decode_abstract none = noAbstractMsg ∧ decode_abstract (some []) = noAbstractMsg :=
  ⟨rfl, rfl⟩

/-- C3 counterexample: the empty text encodes to the empty index, whose
decoding is the placeholder sentence, not the empty text; so decoding is
not a left-inverse of the encoding on the empty text. -/
theorem c3_counterexample :
    decode_abstract (some (encode [])) ≠ String.intercalate " " [] := by decide

/-- C3 (amended): for every nonempty text (word list), decoding the
encoding returns the original text: decode inverts the token-to-positions
mapping and joins the tokens in ascending position order, space-separated. -/
theorem decode_encode_roundtrip (ws : List String) (h : ws ≠ []) :
    decode_abstract (some (encode ws)) = String.intercalate " " ws :=
  decode_encode_aux ws h

/-- C3 witness: the round trip on the concrete two-word text. -/
theorem c3_witness :
    decode_abstract (some (encode ["fall", "risk"])) =
      String.intercalate " " ["fall", "risk"] :=
  decode_encode_roundtrip ["fall", "risk"] (by decide)

/-- C4 counterexample: with one subscribed source whose primary fetch
succeeds with zero results (a quiet subscription), the function returns
the empty list even though the fallback keyword fetch has data: no
minimum-count supplement exists. -/
theorem c4_counterexample :
    fetch_guaranteed_data_v4 exUpQuiet ["The Gerontologist"] = some [] ∧
    exUpQuiet.fallbackResults = some [exPaperA] := ⟨rfl, rfl⟩

/-- C4 (amended): for a known nonempty subscription set, a primary fetch
that succeeds is returned as-is however few (even zero) results it holds,
and only a failed primary fetch (exception or non-200) is replaced — not
supplemented — by the broader keyword fetch. -/
theorem fetch_fallback_on_failure (up : Upstream) (journal_names : List String)
    (h : selectedIds journal_names ≠ []) :
    (∀ rs, up.primary (idFilter (selectedIds journal_names)) = some rs →
        fetch_guaranteed_data_v4 up journal_names = some rs) ∧
    (up.primary (idFilter (selectedIds journal_names)) = none →
        fetch_guaranteed_data_v4 up journal_names = up.fallbackResults) := by
  constructor
  · intro rs hrs
    simp [fetch_guaranteed_data_v4, h, hrs]
  · intro hp
    simp [fetch_guaranteed_data_v4, h, hp]

/-- C4 witness: with one subscribed source and a failing primary fetch,
the result is the fallback outcome. -/
theorem c4_witness :
    fetch_guaranteed_data_v4 exUpDown ["Health & Place"] = exUpDown.fallbackResults :=
  (fetch_fallback_on_failure exUpDown ["Health & Place"] (by decide)).2 rfl

/-- C5 counterexample: the record with no usable unique identifier at all
is not skipped and not counted as an error: the pipeline turns it into a
fully displayed record built from default values. -/
theorem c5_counterexample :
    displayedRecords "" [exPaperNoId] =
      some [{ title := "Untitled Article", venue := "Top Tier Journal", date := "N/A",
              url := "#", cites := 0, is_oa := false, authors_full := "",
              authors_short := "", abstract := noAbstractMsg }] := rfl

/-- C5 (amended): a raw record lacking a usable unique identifier is not
rejected: normalization is total, the record flows through the pipeline
into a displayed record whose missing title reads `Untitled Article`, and
no error count exists. -/
theorem no_id_record_still_displayed (p : RawPaper)
    (hdoi : p.doi = none) (hname : p.display_name = none) :
    displayedRecords "" [p] = some [processPaper p] ∧
    (processPaper p).title = "Untitled Article" := by
  refine ⟨rfl, ?_⟩
  simp [processPaper, hname]

/-- C5 witness: the amended statement at the concrete identifier-less
record. -/
theorem c5_witness :
    displayedRecords "" [exPaperNoId] = some [processPaper exPaperNoId] ∧
    (processPaper exPaperNoId).title = "Untitled Article" :=
  no_id_record_still_displayed exPaperNoId rfl rfl

/-- C6: with an empty keyword the feed filter is a no-op passthrough: the
comprehension is never entered and the fetched corpus is returned exactly,
in order, with nothing dropped. -/
theorem empty_keyword_passthrough (all_papers : List RawPaper) :
    filterPapers "" all_papers = some all_papers := rfl

/-- C7: sync is idempotent: with the upstream unchanged between two calls,
both fetches return the same record list (the fetch is a pure function of
the upstream state and the selection), so the second call contributes zero
records not already present after the first. -/
theorem sync_idempotent (up : Upstream) (journal_names : List String)
    (first second : List RawPaper)
    (h1 : fetch_guaranteed_data_v4 up journal_names = some first)
    (h2 : fetch_guaranteed_data_v4 up journal_names = some second) :
    newRecords first second = [] := by
  rw [h1] at h2
  injection h2 with h
  subst h
  simp only [newRecords]
  rw [List.filter_eq_nil_iff]
  intro r hr
  simp [hr]

/-- C7 witness: two fetches against the same constant upstream, with the
second contributing no new record. -/
theorem c7_witness : newRecords [exPaperA] [exPaperA] = [] :=
  sync_idempotent exUpConst ["Age and Ageing"] [exPaperA] [exPaperA] rfl rfl

/-- C8: the decoder resolves duplicate-position collisions with a
last-token-wins policy: the word stored at every position `q` is exactly
the token of the last iterated mapping entry whose position list contains
`q` (`lastClaim`), so the outcome is a deterministic function of the
mapping and two runs agree. -/
theorem decode_collision_last_token_wins (m : List (String × List Nat)) (q : Nat) :
    dictLookup (buildWordMap m) q = lastClaim m q :=
  buildWordMap_lookup m q

/-- C9: for a non-empty keyword, over records that carry a title, the feed
keeps exactly the records whose lowercased title or lowercased Python
`str()` rendering of the raw inverted index (not the decoded abstract)
contains the lowercased keyword. -/
theorem keyword_filter_matches_raw_index (kw : String) (ps : List RawPaper)
    (hk : kw ≠ "") (hall : ∀ p ∈ ps, p.display_name.isSome) :
    filterPapers kw ps = some (ps.filter (keywordHit kw)) := by
  unfold filterPapers
  rw [if_neg hk]
  induction ps with
  | nil => rfl
  | cons p rest ih =>
    have hp : p.display_name.isSome := hall p (by simp)
    obtain ⟨t, ht⟩ := Option.isSome_iff_exists.mp hp
    have hrest := ih (fun r hr => hall r (by simp [hr]))
    simp only [filterPapersAux, matchPaper, ht, hrest]
    rw [List.filter_cons]
    simp [keywordHit, ht]

/-- C9 witness: the keyword `3` is no substring of the title but occurs in
the `str()` rendering of the raw index as a position number, so the record
is kept. -/
theorem c9_witness :
    filterPapers "3" [exPaperIdx] = some ([exPaperIdx].filter (keywordHit "3")) :=
  keyword_filter_matches_raw_index "3" [exPaperIdx] (by decide) (by decide)

/-- C10: the keyword filter is not total: a record without the
`display_name` key makes the filter raise (`KeyError`, modelled `none`)
under any non-empty keyword, while the render loop's read of the same
field supplies the default `Untitled Article`. -/
theorem missing_display_name_errors (kw : String) (p : RawPaper)
    (ps1 ps2 : List RawPaper) (hk : kw ≠ "") (hp : p.display_name = none) :
    filterPapers kw (ps1 ++ p :: ps2) = none ∧
    (processPaper p).title = "Untitled Article" := by
  constructor
  · unfold filterPapers
    rw [if_neg hk]
    induction ps1 with
    | nil => simp [filterPapersAux, matchPaper, hp]
    | cons q rest ih =>
      simp only [List.cons_append, filterPapersAux, List.append_eq, ih]
      cases matchPaper kw q <;> rfl
  · simp [processPaper, hp]

/-- C10 witness: a two-record fetched list whose second record lacks the
title key errors under the keyword `age`, while the render loop would have
defaulted the same field. -/
theorem c10_witness :
    filterPapers "age" ([exPaperIdx] ++ exPaperNoId :: []) = none ∧
    (processPaper exPaperNoId).title = "Untitled Article" :=
  missing_display_name_errors "age" exPaperNoId [exPaperIdx] [] (by decide) rfl
